import Mathlib

/-!
Shallow embedding of the `pdu` storage analyzer (src/main.rs, src/info.rs,
src/grep.rs, scale-compressed/src/lib.rs) together with proofs about the
claims of its specification.

Byte strings are modelled as `List Nat`; Rust `BTreeMap`s are modelled as
association lists with unique keys, with the `entry` API mapped to explicit
insert-or-modify operations.
-/

namespace PDU

/-- Byte strings from the snapshot stream. -/
abbrev Bytes := List Nat

/-- Association-list lookup, modelling `BTreeMap::get`. -/
def alGet {κ α : Type} [DecidableEq κ] (m : List (κ × α)) (k : κ) : Option α :=
  match m with
  | [] => none
  | (k', v) :: rest => if k' = k then some v else alGet rest k

/-- Models `map.entry(k).or_insert(d)` followed by a mutation `f` of the entry. -/
def alEntryOrInsert {κ α : Type} [DecidableEq κ] (m : List (κ × α)) (k : κ) (d : α)
    (f : α → α) : List (κ × α) :=
  match m with
  | [] => [(k, f d)]
  | (k', v) :: rest => if k' = k then (k', f v) :: rest else (k', v) :: alEntryOrInsert rest k d f

/-- Models `map.entry(k).and_modify(f).or_insert(d)`. -/
def alEntryAndModifyOrInsert {κ α : Type} [DecidableEq κ] (m : List (κ × α)) (k : κ)
    (f : α → α) (d : α) : List (κ × α) :=
  match m with
  | [] => [(k, d)]
  | (k', v) :: rest =>
    if k' = k then (k', f v) :: rest else (k', v) :: alEntryAndModifyOrInsert rest k f d

theorem alGet_alEntryOrInsert_self {κ α : Type} [DecidableEq κ] (m : List (κ × α)) (k : κ)
    (d : α) (f : α → α) : alGet (alEntryOrInsert m k d f) k = some (f ((alGet m k).getD d)) := by
  induction m with
  | nil => simp [alGet, alEntryOrInsert]
  | cons hd tl ih =>
    obtain ⟨k', v⟩ := hd
    by_cases h : k' = k
    · simp [alGet, alEntryOrInsert, h]
    · simp [alGet, alEntryOrInsert, h, ih]

/-- Models `StorageEntryMetadata` (only its name is used by the analyzer). -/
structure StorageEntryMetadata where
  name : String
deriving DecidableEq

/-- Models `CategorizedKey` (src/main.rs). -/
inductive CategorizedKey where
  | Item : String → StorageEntryMetadata → CategorizedKey
  | Pallet : String → CategorizedKey
  | Unknown : CategorizedKey
deriving DecidableEq

/-- Models `type PrefixMap = BTreeMap<Vec<u8>, (String, Option<StorageEntryMetadata>)>`. -/
abbrev PrefixMap := List (Bytes × (String × Option StorageEntryMetadata))

/-- Models `impl From<(String, Option<StorageEntryMetadata>)> for CategorizedKey` (src/main.rs). -/
def categorizedKeyOfPair (p : String × Option StorageEntryMetadata) : CategorizedKey :=
  match p.2 with
  | some storage => CategorizedKey.Item p.1 storage
  | none => CategorizedKey.Pallet p.1

/-- Models `categorize_prefix` (src/main.rs): try the first 32 bytes in the index,
then the first 16 bytes, then fall back to `Unknown`. -/
def categorizeKey (key : Bytes) (lookup : PrefixMap) : CategorizedKey :=
  match (if 32 ≤ key.length then alGet lookup (key.take 32) else none) with
  | some pv => categorizedKeyOfPair pv
  | none =>
    match (if 16 ≤ key.length then alGet lookup (key.take 16) else none) with
    | some pv => categorizedKeyOfPair pv
    | none => CategorizedKey.Unknown

/-- C3: `categorize_prefix` is total and returns exactly one of Item, Pallet or Unknown;
a key of at least 32 bytes whose first 32 bytes are in the index resolves to Item or
Pallet according to whether an item descriptor was stored; otherwise a key of at least
16 bytes whose first 16 bytes are in the index resolves the same way; otherwise the
result is Unknown. -/
theorem categorize_key_total_cases (key : Bytes) (lookup : PrefixMap) :
    ((∃ p sm, categorizeKey key lookup = CategorizedKey.Item p sm) ∨
      (∃ p, categorizeKey key lookup = CategorizedKey.Pallet p) ∨
      categorizeKey key lookup = CategorizedKey.Unknown) ∧
    (∀ p os, 32 ≤ key.length → alGet lookup (key.take 32) = some (p, os) →
      categorizeKey key lookup = categorizedKeyOfPair (p, os)) ∧
    (∀ p os, (if 32 ≤ key.length then alGet lookup (key.take 32) else none) = none →
      16 ≤ key.length → alGet lookup (key.take 16) = some (p, os) →
      categorizeKey key lookup = categorizedKeyOfPair (p, os)) ∧
    ((if 32 ≤ key.length then alGet lookup (key.take 32) else none) = none →
      (if 16 ≤ key.length then alGet lookup (key.take 16) else none) = none →
      categorizeKey key lookup = CategorizedKey.Unknown) ∧
    (∀ p sm, categorizedKeyOfPair (p, some sm) = CategorizedKey.Item p sm) ∧
    (∀ p, categorizedKeyOfPair (p, none) = CategorizedKey.Pallet p) := by
  refine ⟨?_, ?_, ?_, ?_, fun p sm => rfl, fun p => rfl⟩
  · cases h : categorizeKey key lookup with
    | Item p sm => exact Or.inl ⟨p, sm, rfl⟩
    | Pallet p => exact Or.inr (Or.inl ⟨p, rfl⟩)
    | Unknown => exact Or.inr (Or.inr rfl)
  · intro p os h32 hget
    simp [categorizeKey, h32, hget]
  · intro p os h32none h16 hget
    simp [categorizeKey, h32none, h16, hget]
  · intro h32none h16none
    simp [categorizeKey, h32none, h16none]

/-- Witness for C3: a 32-byte key present in the index with an item descriptor
resolves through the 32-byte branch. -/
theorem categorize_key_total_cases_witness :
    categorizeKey (List.replicate 32 7)
        [(List.replicate 32 7, ("System", some ⟨"Account"⟩))] =
      categorizedKeyOfPair ("System", some ⟨"Account"⟩) :=
  (categorize_key_total_cases (List.replicate 32 7)
      [(List.replicate 32 7, ("System", some ⟨"Account"⟩))]).2.1 "System"
    (some ⟨"Account"⟩) (by decide) (by decide)

/-! ### Substring search (src/grep.rs, `is_substr`) -/

/-- Models the loop of `is_substr` (src/grep.rs): repeatedly test whether the needle is a
prefix of the remaining haystack, advancing one element and bumping `start` each round. -/
def isSubstrGo (needle : List Nat) : List Nat → Nat → Option Nat
  | [], _ => none
  | x :: rest, start =>
    if needle.isPrefixOf (x :: rest) then some start else isSubstrGo needle rest (start + 1)

/-- Models `is_substr` (src/grep.rs), instantiated at byte elements. -/
def is_substr (haystack needle : List Nat) : Option Nat :=
  if needle.length = 0 then some 0 else isSubstrGo needle haystack 0

theorem isSubstrGo_some (needle : List Nat) :
    ∀ (haystack : List Nat) (start i : Nat), isSubstrGo needle haystack start = some i →
      start ≤ i ∧ needle <+: haystack.drop (i - start) ∧
        ∀ j, j < i - start → ¬ needle <+: haystack.drop j := by
  intro haystack
  induction haystack with
  | nil => intro start i h; simp [isSubstrGo] at h
  | cons x rest ih =>
    intro start i h
    by_cases hpre : needle.isPrefixOf (x :: rest)
    · simp only [isSubstrGo, hpre, if_pos] at h
      obtain rfl : start = i := by simpa using h
      refine ⟨le_refl _, ?_, ?_⟩
      · simpa using List.isPrefixOf_iff_prefix.mp hpre
      · intro j hj; omega
    · simp only [isSubstrGo, hpre, if_neg, Bool.false_eq_true, not_false_iff] at h
      obtain ⟨hle, hdrop, hmin⟩ := ih (start + 1) i h
      refine ⟨by omega, ?_, ?_⟩
      · have : (x :: rest).drop (i - start) = rest.drop (i - (start + 1)) := by
          have h1 : i - start = (i - (start + 1)) + 1 := by omega
          rw [h1]; rfl
        rw [this]; exact hdrop
      · intro j hj
        match j with
        | 0 =>
          simpa using fun hcon => hpre (List.isPrefixOf_iff_prefix.mpr hcon)
        | j' + 1 =>
          have : (x :: rest).drop (j' + 1) = rest.drop j' := rfl
          rw [this]
          exact hmin j' (by omega)

theorem isSubstrGo_none (needle : List Nat) (hn : needle ≠ []) :
    ∀ (haystack : List Nat) (start : Nat), isSubstrGo needle haystack start = none →
      ∀ j, ¬ needle <+: haystack.drop j := by
  intro haystack
  induction haystack with
  | nil =>
    intro start _ j hcon
    rw [List.drop_nil] at hcon
    exact hn (List.prefix_nil.mp hcon)
  | cons x rest ih =>
    intro start h j hcon
    by_cases hpre : needle.isPrefixOf (x :: rest)
    · simp [isSubstrGo, hpre] at h
    · simp only [isSubstrGo, hpre, if_neg, Bool.false_eq_true, not_false_iff] at h
      match j with
      | 0 => exact hpre (List.isPrefixOf_iff_prefix.mpr (by simpa using hcon))
      | j' + 1 => exact ih (start + 1) h j' (by simpa using hcon)

/-- C4: `is_substr` returns the lowest index at which the needle occurs contiguously in
the haystack, `none` when it does not occur, and `some 0` for the empty needle on every
haystack. -/
theorem is_substr_correct (haystack needle : List Nat) :
    (∀ i, is_substr haystack needle = some i →
      needle <+: haystack.drop i ∧ ∀ j, needle <+: haystack.drop j → i ≤ j) ∧
    (is_substr haystack needle = none → ∀ j, ¬ needle <+: haystack.drop j) ∧
    is_substr haystack [] = some 0 := by
  refine ⟨?_, ?_, by simp [is_substr]⟩
  · intro i h
    by_cases hn : needle.length = 0
    · obtain rfl : needle = [] := List.length_eq_zero.mp hn
      simp only [is_substr, if_pos rfl] at h
      obtain rfl : (0 : Nat) = i := by simpa using h
      exact ⟨by simp, fun j _ => Nat.zero_le j⟩
    · simp only [is_substr, if_neg hn] at h
      obtain ⟨-, hdrop, hmin⟩ := isSubstrGo_some needle haystack 0 i h
      simp only [Nat.sub_zero] at hdrop hmin
      refine ⟨hdrop, fun j hj => ?_⟩
      by_contra hcon
      exact hmin j (by omega) hj
  · intro h j
    by_cases hn : needle.length = 0
    · simp [is_substr, hn] at h
    · simp only [is_substr, if_neg hn] at h
      exact isSubstrGo_none needle (fun hc => hn (by simp [hc])) haystack 0 h j

/-- Witness for C4: on haystack `[1,2,3]` the needle `[2,3]` is found at index 1,
which is an occurrence. -/
theorem is_substr_correct_witness : ([2, 3] : List Nat) <+: List.drop 1 [1, 2, 3] :=
  ((is_substr_correct [1, 2, 3] [2, 3]).1 1 rfl).1

/-! ### Sovereign account derivation (src/grep.rs, `para_id_to_address`) -/

/-- Models `ParaLocation` (src/grep.rs). -/
inductive ParaLocation where
  | Child
  | Sibling
deriving DecidableEq

/-- Models SCALE `Encode` for `u16` (parity-scale-codec): the fixed-width two-byte
little-endian encoding produced by `para_id.encode()`. -/
def scaleEncodeU16 (id : Nat) : Bytes := [id % 256, id / 256 % 256]

/-- Models `para_id_to_address` (src/grep.rs): a 32-byte zero buffer whose bytes 0..4 hold
the ASCII tag `"para"` (Child) or `"sibl"` (Sibling) and whose bytes 4..6 hold the SCALE
encoding of the id. -/
def para_id_to_address (location : ParaLocation) (para_id : Nat) : Bytes :=
  let pre : Bytes :=
    match location with
    | ParaLocation.Child => [0x70, 0x61, 0x72, 0x61]
    | ParaLocation.Sibling => [0x73, 0x69, 0x62, 0x6c]
  pre ++ scaleEncodeU16 para_id ++ List.replicate 26 0

/-- Follows the spec's words only, for comparison with the code: the canonical SCALE
compact encoding of a 16-bit value. -/
def compactEncodeU16Spec (n : Nat) : Bytes :=
  if n < 64 then [4 * n]
  else if n < 16384 then [(4 * n + 1) % 256, (4 * n + 1) / 256]
  else
    [(4 * n + 2) % 256, (4 * n + 2) / 256 % 256, (4 * n + 2) / 65536 % 256,
      (4 * n + 2) / 16777216 % 256]

/-- Counterexample for C5: for id 1, the buffer holds the fixed-width encoding `[1, 0]`
after the tag, not the canonical compact encoding `[4]` zero-padded to 32 bytes. -/
theorem para_id_to_address_compact_counterexample :
    para_id_to_address ParaLocation.Child 1 ≠
      [0x70, 0x61, 0x72, 0x61] ++ compactEncodeU16Spec 1 ++ List.replicate 27 0 := by
  decide

/-- The 4-byte ASCII tag selected by the location, named for specification purposes. -/
def paraTag : ParaLocation → Bytes
  | ParaLocation.Child => [0x70, 0x61, 0x72, 0x61]
  | ParaLocation.Sibling => [0x73, 0x69, 0x62, 0x6c]

/-- C5 (amended): for every location and 16-bit id the buffer is exactly 32 bytes,
starting with a fixed 4-byte ASCII tag (distinct for Child and Sibling), immediately
followed by the fixed-width two-byte little-endian SCALE encoding of the id, with all
remaining bytes zero. -/
theorem para_id_to_address_spec (location : ParaLocation) (para_id : Nat)
    (h : para_id < 65536) :
    para_id_to_address location para_id =
      paraTag location ++ [para_id % 256, para_id / 256] ++ List.replicate 26 0 ∧
    (paraTag location).length = 4 ∧
    paraTag ParaLocation.Child ≠ paraTag ParaLocation.Sibling ∧
    (para_id_to_address location para_id).length = 32 := by
  have hdiv : para_id / 256 % 256 = para_id / 256 := by
    apply Nat.mod_eq_of_lt
    omega
  cases location <;>
    simp [para_id_to_address, paraTag, scaleEncodeU16, hdiv]

/-- Witness for C5 (amended): id 300 encodes as the bytes `[44, 1]` after the Child tag. -/
theorem para_id_to_address_spec_witness :
    para_id_to_address ParaLocation.Child 300 =
      paraTag ParaLocation.Child ++ [44, 1] ++ List.replicate 26 0 :=
  (para_id_to_address_spec ParaLocation.Child 300 (by decide)).1

/-! ### Search engine (src/grep.rs, `search_subjects`) -/

/-- Models `Subject` (src/grep.rs). -/
inductive Subject where
  | Address : Bytes → Subject
  | ParaAccount : ParaLocation → Nat → Bytes → Subject
deriving DecidableEq

/-- Models `Subject::matches` (src/grep.rs). -/
def Subject.matches (s : Subject) (data : Bytes) : Bool :=
  match s with
  | Subject.Address address => (is_substr data address).isSome
  | Subject.ParaAccount _ _ address => (is_substr data address).isSome

/-- Modelled from the spec: `CategorizedKey::name` is called by `search_subjects` but its
definition is not among the sources; the spec says match reports carry the category label,
with `Unknown` as the total fallback label. -/
def CategorizedKey.name : CategorizedKey → String
  | CategorizedKey.Item pallet _ => pallet
  | CategorizedKey.Pallet pallet => pallet
  | CategorizedKey.Unknown => "Unknown"

/-- Models `Grep::is_ignored` (src/grep.rs): only the Item variant with a pallet name equal
to the `ignore_pallet` filter is ignored. -/
def is_ignored (ignorePallet : Option String) (key : CategorizedKey) : Bool :=
  match key with
  | CategorizedKey.Item pallet _ => (ignorePallet.map (fun p => p == pallet)).getD false
  | _ => false

/-- One printed match report of `search_subjects` (src/grep.rs). -/
inductive ReportLine where
  | keyLine : Subject → String → Bytes → ReportLine
  | valueLine : Subject → String → Bytes → Bytes → ReportLine
deriving DecidableEq

/-- Models the `for subject in subjects` loop of `search_subjects` (src/grep.rs) for one
field: each matching subject overwrites the previous one. -/
def foundSubject (subjects : List Subject) (data : Bytes) : Option Subject :=
  subjects.foldl (fun acc s => if s.matches data then some s else acc) none

/-- Models `Grep::search_subjects` (src/grep.rs): process records until the stream ends or
the `none` sentinel arrives; return the report lines in print order together with the
match counter `count` and the total counter `total`. -/
def search_subjects (ignorePallet : Option String) (lookup : PrefixMap)
    (subjects : List Subject) :
    List (Option (Bytes × Bytes)) → List ReportLine × Nat × Nat
  | [] => ([], 0, 0)
  | none :: _ => ([], 0, 0)
  | some (key, value) :: rest =>
    let r := search_subjects ignorePallet lookup subjects rest
    match foundSubject subjects key, foundSubject subjects value with
    | none, none => (r.1, r.2.1, r.2.2 + 1)
    | fk, fv =>
      let info := categorizeKey key lookup
      if is_ignored ignorePallet info then
        (r.1, r.2.1 + 1, r.2.2 + 1)
      else
        let kLines : List ReportLine :=
          match fk with
          | some ks => [ReportLine.keyLine ks info.name key]
          | none => []
        let vLines : List ReportLine :=
          match fv with
          | some vs => [ReportLine.valueLine vs info.name key value]
          | none => []
        (kLines ++ vLines ++ r.1, r.2.1 + 1, r.2.2 + 1)

/-- Counterexample for C2: one record matching a subject whose category is the ignored
pallet produces no report line, yet the match counter is 1, not 0. -/
theorem search_subjects_ignored_counterexample :
    search_subjects (some "System") [(List.replicate 32 7, ("System", some ⟨"Account"⟩))]
        [Subject.Address [7]] [some (List.replicate 32 7, [])] = ([], 1, 1) ∧
    foundSubject [Subject.Address [7]] (List.replicate 32 7) ≠ none ∧
    is_ignored (some "System")
      (categorizeKey (List.replicate 32 7)
        [(List.replicate 32 7, ("System", some ⟨"Account"⟩))]) = true := by
  refine ⟨?_, by decide, by decide⟩
  decide

/-- C2 (amended): a record that matches some subject and whose category is ignored is
suppressed from the output, but it still increments the match counter as well as the
total-scanned counter. -/
theorem search_subjects_ignored_amended (ignorePallet : Option String) (lookup : PrefixMap)
    (subjects : List Subject) (key value : Bytes) (rest : List (Option (Bytes × Bytes)))
    (hmatch : foundSubject subjects key ≠ none ∨ foundSubject subjects value ≠ none)
    (hign : is_ignored ignorePallet (categorizeKey key lookup) = true) :
    search_subjects ignorePallet lookup subjects (some (key, value) :: rest) =
      ((search_subjects ignorePallet lookup subjects rest).1,
        (search_subjects ignorePallet lookup subjects rest).2.1 + 1,
        (search_subjects ignorePallet lookup subjects rest).2.2 + 1) := by
  cases hk : foundSubject subjects key <;> cases hv : foundSubject subjects value <;>
    simp only [search_subjects, hk, hv, hign, if_pos]
  all_goals simp_all

/-- Witness for C2 (amended): the ignored match from the counterexample record stream. -/
theorem search_subjects_ignored_amended_witness :
    search_subjects (some "System") [(List.replicate 32 7, ("System", some ⟨"Account"⟩))]
        [Subject.Address [7]] [some (List.replicate 32 7, []), none] = ([], 1, 1) :=
  search_subjects_ignored_amended (some "System")
    [(List.replicate 32 7, ("System", some ⟨"Account"⟩))] [Subject.Address [7]]
    (List.replicate 32 7) [] [none] (Or.inl (by decide)) (by decide)

theorem foldl_overwrite_getLast {α : Type} (p : α → Bool) (l : List α) :
    ∀ acc : Option α,
      l.foldl (fun a s => if p s then some s else a) acc = ((l.filter p).getLast?).or acc := by
  induction l with
  | nil => intro acc; simp
  | cons s rest ih =>
    intro acc
    by_cases hs : p s = true
    · rw [List.foldl_cons, if_pos hs, ih (some s), List.filter_cons_of_pos hs]
      cases hlist : rest.filter p with
      | nil => simp
      | cons a l2 =>
        rw [List.getLast?_cons_cons]
        cases hgl : (a :: l2).getLast? with
        | none =>
          rw [List.getLast?_eq_none_iff] at hgl
          exact absurd hgl (by simp)
        | some t => simp
    · rw [List.foldl_cons, if_neg hs, ih acc, List.filter_cons_of_neg (by simpa using hs)]

/-- C6: the subject attributed to a field is the last subject in input order that matches
it; in the scenario with subjects `A = [1,2,3]` and `B = [4,5]` and record key
`[0,1,2,3,9]`, the key match is attributed to `A`. -/
theorem search_subjects_last_match_attribution :
    (∀ (subjects : List Subject) (data : Bytes),
      foundSubject subjects data = (subjects.filter (fun s => s.matches data)).getLast?) ∧
    search_subjects none [] [Subject.Address [1, 2, 3], Subject.Address [4, 5]]
        [some ([0, 1, 2, 3, 9], [])] =
      ([ReportLine.keyLine (Subject.Address [1, 2, 3]) "Unknown" [0, 1, 2, 3, 9]], 1, 1) := by
  constructor
  · intro subjects data
    have h := foldl_overwrite_getLast (fun s => s.matches data) subjects none
    rw [Option.or_none] at h
    exact h
  · decide

/-- C9: `is_ignored` holds exactly when the category is the Item variant whose pallet name
equals the ignore filter; the Pallet and Unknown variants are never ignored. -/
theorem is_ignored_iff (ignorePallet : Option String) (key : CategorizedKey) :
    is_ignored ignorePallet key = true ↔
      ∃ pallet sm, key = CategorizedKey.Item pallet sm ∧ ignorePallet = some pallet := by
  cases key with
  | Item pallet sm =>
    cases ignorePallet with
    | none => simp [is_ignored]
    | some p =>
      simp only [is_ignored, Option.map_some', Option.getD_some, beq_iff_eq]
      constructor
      · rintro rfl
        exact ⟨_, _, rfl, rfl⟩
      · rintro ⟨p', sm', heq, hsome⟩
        cases heq
        cases hsome
        rfl
  | Pallet pallet => simp [is_ignored]
  | Unknown => simp [is_ignored]

/-- Witness for C9: a matching Item category with the filter set to its pallet name is
ignored. -/
theorem is_ignored_iff_witness :
    is_ignored (some "System") (CategorizedKey.Item "System" ⟨"Account"⟩) = true :=
  (is_ignored_iff (some "System") (CategorizedKey.Item "System" ⟨"Account"⟩)).mpr
    ⟨"System", ⟨"Account"⟩, rfl, rfl⟩

/-! ### Aggregation pipeline as in src/main.rs -/

/-- The ANSI-painted display string `ansi_term::Color::Yellow.paint("Unknown")` used as the
map key for unknown pallets and items. -/
def unknownPainted : String := "\x1b[33mUnknown\x1b[0m"

namespace MainRs

/-- Models `ItemInfo` (src/main.rs). -/
structure ItemInfo where
  name : String
  key_len : Nat
  value_len : Nat
  num_entries : Nat
deriving DecidableEq

/-- Models `PalletInfo` (src/main.rs). -/
structure PalletInfo where
  name : String
  size : Nat
  items : List (String × ItemInfo)
deriving DecidableEq

/-- The per-record accumulation shared verbatim by the three match arms of
`process_snapshot_chunk` (src/main.rs), with the pallet and item names substituted. -/
def accountRecord (m : List (String × PalletInfo)) (palletName itemName : String)
    (keyLen valueLen : Nat) : List (String × PalletInfo) :=
  alEntryOrInsert m palletName
    { name := palletName, size := 0, items := [] }
    (fun pinfo =>
      { pinfo with
        items := alEntryOrInsert pinfo.items itemName
          { name := itemName, key_len := 0, value_len := 0, num_entries := 0 }
          (fun iinfo =>
            { iinfo with
              key_len := iinfo.key_len + keyLen
              value_len := iinfo.value_len + valueLen
              num_entries := iinfo.num_entries + 1 })
        size := pinfo.size + keyLen + valueLen })

/-- Models the record-processing body of the loop in `process_snapshot_chunk`
(src/main.rs). -/
def processRecord (lookup : PrefixMap) (m : List (String × PalletInfo))
    (kv : Bytes × Bytes) : List (String × PalletInfo) :=
  match categorizeKey kv.1 lookup with
  | CategorizedKey.Item pallet item => accountRecord m pallet item.name kv.1.length kv.2.length
  | CategorizedKey.Pallet pallet => accountRecord m pallet unknownPainted kv.1.length kv.2.length
  | CategorizedKey.Unknown =>
    accountRecord m unknownPainted unknownPainted kv.1.length kv.2.length

/-- Models `process_snapshot_chunk` (src/main.rs) applied to the records this worker
dequeues, in dequeue order. -/
def process_snapshot_chunk (lookup : PrefixMap) (records : List (Bytes × Bytes)) :
    List (String × PalletInfo) :=
  records.foldl (processRecord lookup) []

/-- The pallet-name and item-name keys the three arms of `process_snapshot_chunk` use. -/
def targetNames (cat : CategorizedKey) : String × String :=
  match cat with
  | CategorizedKey.Item pallet item => (pallet, item.name)
  | CategorizedKey.Pallet pallet => (pallet, unknownPainted)
  | CategorizedKey.Unknown => (unknownPainted, unknownPainted)

theorem processRecord_eq (lookup : PrefixMap) (m : List (String × PalletInfo))
    (kv : Bytes × Bytes) :
    processRecord lookup m kv =
      accountRecord m (targetNames (categorizeKey kv.1 lookup)).1
        (targetNames (categorizeKey kv.1 lookup)).2 kv.1.length kv.2.length := by
  cases h : categorizeKey kv.1 lookup <;> simp [processRecord, targetNames, h]

/-- Look up one item's statistics in a per-worker or merged map. -/
def itemLookup (m : List (String × PalletInfo)) (palletName itemName : String) :
    Option ItemInfo :=
  (alGet m palletName).bind (fun pinfo => alGet pinfo.items itemName)

theorem itemLookup_accountRecord_self (m : List (String × PalletInfo))
    (palletName itemName : String) (keyLen valueLen : Nat) :
    itemLookup (accountRecord m palletName itemName keyLen valueLen) palletName itemName =
      some
        (let old := (itemLookup m palletName itemName).getD
          { name := itemName, key_len := 0, value_len := 0, num_entries := 0 }
        { old with
          key_len := old.key_len + keyLen
          value_len := old.value_len + valueLen
          num_entries := old.num_entries + 1 }) := by
  unfold itemLookup accountRecord
  rw [alGet_alEntryOrInsert_self]
  cases h : alGet m palletName with
  | none => simp [h, alGet_alEntryOrInsert_self, alGet]
  | some pinfo => simp [h, alGet_alEntryOrInsert_self]

/-- C7: a worker that processes exactly three records with key and value lengths
(10,20), (5,5), (10,20), all landing in the same pallet and item bucket, records
`num_entries = 3`, `key_len = 25` and `value_len = 45` for that item. -/
theorem three_records_item_stat (lookup : PrefixMap) (P I : String)
    (k1 v1 k2 v2 k3 v3 : Bytes)
    (hk1 : k1.length = 10) (hv1 : v1.length = 20)
    (hk2 : k2.length = 5) (hv2 : v2.length = 5)
    (hk3 : k3.length = 10) (hv3 : v3.length = 20)
    (h1 : targetNames (categorizeKey k1 lookup) = (P, I))
    (h2 : targetNames (categorizeKey k2 lookup) = (P, I))
    (h3 : targetNames (categorizeKey k3 lookup) = (P, I)) :
    itemLookup (process_snapshot_chunk lookup [(k1, v1), (k2, v2), (k3, v3)]) P I =
      some { name := I, key_len := 25, value_len := 45, num_entries := 3 } := by
  have e1 := processRecord_eq lookup [] (k1, v1)
  have e2 := processRecord_eq lookup (processRecord lookup [] (k1, v1)) (k2, v2)
  have e3 := processRecord_eq lookup
    (processRecord lookup (processRecord lookup [] (k1, v1)) (k2, v2)) (k3, v3)
  rw [h1] at e1
  rw [h2] at e2
  rw [h3] at e3
  simp only [hk1, hv1, hk2, hv2, hk3, hv3] at e1 e2 e3
  show itemLookup (processRecord lookup
    (processRecord lookup (processRecord lookup [] (k1, v1)) (k2, v2)) (k3, v3)) P I = _
  rw [e3, itemLookup_accountRecord_self, e2, itemLookup_accountRecord_self, e1,
    itemLookup_accountRecord_self]
  simp [itemLookup, alGet]

/-- Witness for C7: three short records against the empty prefix index all land in the
Unknown bucket and accumulate to (3, 25, 45). -/
theorem three_records_item_stat_witness :
    itemLookup
        (process_snapshot_chunk []
          [(List.replicate 10 0, List.replicate 20 0), (List.replicate 5 0, List.replicate 5 0),
            (List.replicate 10 0, List.replicate 20 0)])
        unknownPainted unknownPainted =
      some { name := unknownPainted, key_len := 25, value_len := 45, num_entries := 3 } :=
  three_records_item_stat [] unknownPainted unknownPainted
    (List.replicate 10 0) (List.replicate 20 0) (List.replicate 5 0) (List.replicate 5 0)
    (List.replicate 10 0) (List.replicate 20 0)
    (by decide) (by decide) (by decide) (by decide) (by decide) (by decide) rfl rfl rfl

/-- Models the `and_modify` closure at pallet level in `merge_partial_results`
(src/main.rs): sizes are summed and the incoming pallet's items folded in. -/
def mergePalletInto (existing incoming : PalletInfo) : PalletInfo :=
  { existing with
    size := existing.size + incoming.size
    items := incoming.items.foldl
      (fun items p =>
        alEntryAndModifyOrInsert items p.1
          (fun ei =>
            { ei with
              key_len := ei.key_len + p.2.key_len
              value_len := ei.value_len + p.2.value_len
              num_entries := ei.num_entries + p.2.num_entries })
          p.2)
      existing.items }

/-- Models one iteration of the `for (pallet, pallet_info) in partial_result` loop of
`merge_partial_results` (src/main.rs). -/
def mergeOne (acc : List (String × PalletInfo)) (part : List (String × PalletInfo)) :
    List (String × PalletInfo) :=
  part.foldl
    (fun acc2 p =>
      alEntryAndModifyOrInsert acc2 p.1 (fun existing => mergePalletInto existing p.2) p.2)
    acc

/-- A finished worker task as seen by `handle.await`: either the worker's map, or a join
error for an aborted task. -/
abbrev JoinResult := Except Unit (List (String × PalletInfo))

def mergeHandlesGo (acc : List (String × PalletInfo)) :
    List JoinResult → Except Unit (List (String × PalletInfo))
  | [] => Except.ok acc
  | h :: rest =>
    match h with
    | Except.error e => Except.error e
    | Except.ok part => mergeHandlesGo (mergeOne acc part) rest

/-- Models `merge_partial_results` (src/main.rs): `handle.await?` propagates a worker
abort; otherwise each worker's partial map is folded into the accumulator. -/
def merge_partial_results (handles : List JoinResult) :
    Except Unit (List (String × PalletInfo)) :=
  mergeHandlesGo [] handles

/-- Whether an `Except` value is a success. -/
def exceptOk {ε α : Type} : Except ε α → Bool
  | Except.ok _ => true
  | Except.error _ => false

theorem mergeHandlesGo_ok (handles : List JoinResult) :
    ∀ acc, exceptOk (mergeHandlesGo acc handles) = handles.all (fun h => exceptOk h) := by
  induction handles with
  | nil => intro acc; simp [mergeHandlesGo, exceptOk]
  | cons h rest ih =>
    intro acc
    cases h with
    | error e => simp [mergeHandlesGo, exceptOk]
    | ok part =>
      simp only [mergeHandlesGo, List.all_cons]
      rw [ih (mergeOne acc part)]
      simp [exceptOk]

/-- C8: `merge_partial_results` succeeds exactly when every worker terminated normally;
any aborted worker makes the whole merge fail, so no merged result can silently omit an
aborted worker's contribution. -/
theorem merge_partial_results_ok_iff_all_ok (handles : List JoinResult) :
    exceptOk (merge_partial_results handles) = handles.all (fun h => exceptOk h) :=
  mergeHandlesGo_ok handles []

end MainRs

/-! ### Aggregation pipeline as in src/info.rs (with compressed sizes) -/

namespace InfoRs

/-- Models `ItemInfo` (src/info.rs). -/
structure ItemInfo where
  name : String
  key_len : Nat
  compressed_key_len : Nat
  value_len : Nat
  compressed_value_len : Nat
  num_entries : Nat
deriving DecidableEq

/-- Models `PalletInfo` (src/info.rs). -/
structure PalletInfo where
  name : String
  size : Nat
  compressed_size : Nat
  items : List (String × ItemInfo)
deriving DecidableEq

/-- The per-record accumulation shared verbatim by the three match arms of
`process_snapshot_chunk` (src/info.rs), with the pallet and item names substituted. -/
def accountRecord (m : List (String × PalletInfo)) (palletName itemName : String)
    (keyLen ckLen valueLen cvLen : Nat) : List (String × PalletInfo) :=
  alEntryOrInsert m palletName
    { name := palletName, size := 0, compressed_size := 0, items := [] }
    (fun pinfo =>
      { pinfo with
        items := alEntryOrInsert pinfo.items itemName
          { name := itemName, key_len := 0, compressed_key_len := 0, value_len := 0,
            compressed_value_len := 0, num_entries := 0 }
          (fun iinfo =>
            { iinfo with
              key_len := iinfo.key_len + keyLen
              compressed_key_len := iinfo.compressed_key_len + ckLen
              value_len := iinfo.value_len + valueLen
              compressed_value_len := iinfo.compressed_value_len + cvLen
              num_entries := iinfo.num_entries + 1 })
        compressed_size := pinfo.compressed_size + ckLen + cvLen
        size := pinfo.size + keyLen + valueLen })

/-- Models the record-processing body of the loop in `process_snapshot_chunk`
(src/info.rs); `compress` is the external size-estimator `compress_size`. -/
def processRecord (lookup : PrefixMap) (compress : Bytes → Nat)
    (m : List (String × PalletInfo)) (kv : Bytes × Bytes) : List (String × PalletInfo) :=
  match categorizeKey kv.1 lookup with
  | CategorizedKey.Item pallet item =>
    accountRecord m pallet item.name kv.1.length (compress kv.1) kv.2.length (compress kv.2)
  | CategorizedKey.Pallet pallet =>
    accountRecord m pallet unknownPainted kv.1.length (compress kv.1) kv.2.length (compress kv.2)
  | CategorizedKey.Unknown =>
    accountRecord m unknownPainted unknownPainted kv.1.length (compress kv.1) kv.2.length
      (compress kv.2)

/-- Models `process_snapshot_chunk` (src/info.rs) applied to the records this worker
dequeues, in dequeue order. -/
def process_snapshot_chunk (lookup : PrefixMap) (compress : Bytes → Nat)
    (records : List (Bytes × Bytes)) : List (String × PalletInfo) :=
  records.foldl (processRecord lookup compress) []

/-- Models the `and_modify` closure at pallet level in `merge_partial_results`
(src/info.rs): `size`, `key_len`, `value_len` and `num_entries` are summed, while
`compressed_size`, `compressed_key_len` and `compressed_value_len` are left untouched,
exactly as in the code. -/
def mergePalletInto (existing incoming : PalletInfo) : PalletInfo :=
  { existing with
    size := existing.size + incoming.size
    items := incoming.items.foldl
      (fun items p =>
        alEntryAndModifyOrInsert items p.1
          (fun ei =>
            { ei with
              key_len := ei.key_len + p.2.key_len
              value_len := ei.value_len + p.2.value_len
              num_entries := ei.num_entries + p.2.num_entries })
          p.2)
      existing.items }

/-- Models one iteration of the `for (pallet, pallet_info) in partial_result` loop of
`merge_partial_results` (src/info.rs). -/
def mergeOne (acc : List (String × PalletInfo)) (part : List (String × PalletInfo)) :
    List (String × PalletInfo) :=
  part.foldl
    (fun acc2 p =>
      alEntryAndModifyOrInsert acc2 p.1 (fun existing => mergePalletInto existing p.2) p.2)
    acc

/-- Models `merge_partial_results` (src/info.rs) on the per-worker maps, all workers
having terminated normally. -/
def merge_partial_results (parts : List (List (String × PalletInfo))) :
    List (String × PalletInfo) :=
  parts.foldl mergeOne []

/-- Look up one item's statistics in a per-worker or merged map. -/
def itemLookup (m : List (String × PalletInfo)) (palletName itemName : String) :
    Option ItemInfo :=
  (alGet m palletName).bind (fun pinfo => alGet pinfo.items itemName)

/-- C1 fails on src/info.rs: with the byte-length estimator and an empty prefix index,
merging the one-worker partition of records `([1],[2,3])`, `([4],[5,6])` yields
`compressed_key_len = 2` for the Unknown item, while the two-worker partition of the very
same records yields `compressed_key_len = 1` — the merge step does not sum the compressed
fields, so the merged result depends on the partition. -/
theorem merge_partial_results_partition_dependent :
    (itemLookup
        (merge_partial_results
          [process_snapshot_chunk [] List.length [([1], [2, 3]), ([4], [5, 6])]])
        unknownPainted unknownPainted).map (fun i => i.compressed_key_len) = some 2 ∧
    (itemLookup
        (merge_partial_results
          [process_snapshot_chunk [] List.length [([1], [2, 3])],
            process_snapshot_chunk [] List.length [([4], [5, 6])]])
        unknownPainted unknownPainted).map (fun i => i.compressed_key_len) = some 1 ∧
    merge_partial_results
        [process_snapshot_chunk [] List.length [([1], [2, 3]), ([4], [5, 6])]] ≠
      merge_partial_results
        [process_snapshot_chunk [] List.length [([1], [2, 3])],
          process_snapshot_chunk [] List.length [([4], [5, 6])]] := by
  refine ⟨by decide, by decide, by decide⟩

end InfoRs

/-! ### ScaleCompressed (scale-compressed/src/lib.rs) -/

/-- Little-endian byte decomposition with a fixed number of bytes. -/
def leBytes : Nat → Nat → Bytes
  | 0, _ => []
  | L + 1, n => n % 256 :: leBytes L (n / 256)

/-- Little-endian byte recomposition. -/
def fromLeBytes : Bytes → Nat
  | [] => 0
  | b :: bs => b + 256 * fromLeBytes bs

theorem leBytes_length (L n : Nat) : (leBytes L n).length = L := by
  induction L generalizing n with
  | zero => rfl
  | succ L ih => simp [leBytes, ih]

theorem fromLeBytes_leBytes (L n : Nat) : fromLeBytes (leBytes L n) = n % 256 ^ L := by
  induction L generalizing n with
  | zero => simp [leBytes, fromLeBytes, Nat.mod_one]
  | succ L ih =>
    rw [leBytes, fromLeBytes, ih, pow_succ', Nat.mod_mul]

/-- Models SCALE compact encoding of a `u32` (parity-scale-codec), used for the
length prefix of `Vec<u8>`. -/
def compactEncodeU32 (n : Nat) : Bytes :=
  if n < 64 then [4 * n]
  else if n < 16384 then leBytes 2 (4 * n + 1)
  else if n < 1073741824 then leBytes 4 (4 * n + 2)
  else 3 :: leBytes 4 n

/-- Models SCALE compact decoding of a `u32`, returning the value and the remaining
input. -/
def compactDecodeU32 : Bytes → Option (Nat × Bytes)
  | [] => none
  | b0 :: rest =>
    if b0 % 4 = 0 then some (b0 / 4, rest)
    else if b0 % 4 = 1 then
      match rest with
      | b1 :: rest2 => some ((b0 + 256 * b1) / 4, rest2)
      | [] => none
    else if b0 % 4 = 2 then
      match rest with
      | b1 :: b2 :: b3 :: rest2 =>
        some ((b0 + 256 * b1 + 65536 * b2 + 16777216 * b3) / 4, rest2)
      | _ => none
    else
      if rest.length < b0 / 4 + 4 then none
      else some (fromLeBytes (rest.take (b0 / 4 + 4)), rest.drop (b0 / 4 + 4))

theorem compactDecodeU32_encode (n : Nat) (h : n < 4294967296) (rest : Bytes) :
    compactDecodeU32 (compactEncodeU32 n ++ rest) = some (n, rest) := by
  by_cases h1 : n < 64
  · simp only [compactEncodeU32, if_pos h1, List.cons_append, List.nil_append,
      compactDecodeU32]
    have : 4 * n % 4 = 0 := by omega
    rw [if_pos this]
    congr 1
    congr 1
    omega
  · by_cases h2 : n < 16384
    · simp only [compactEncodeU32, if_neg h1, if_pos h2, leBytes, compactDecodeU32,
        List.cons_append]
      have e0 : (4 * n + 1) % 256 % 4 = 1 := by omega
      rw [if_neg (by omega), if_pos e0]
      congr 1
      congr 1
      omega
    · by_cases h3 : n < 1073741824
      · simp only [compactEncodeU32, if_neg h1, if_neg h2, if_pos h3, leBytes,
          compactDecodeU32, List.cons_append]
        have e0 : (4 * n + 2) % 256 % 4 = 2 := by omega
        rw [if_neg (by omega), if_neg (by omega), if_pos e0]
        congr 1
        congr 1
        omega
      · simp only [compactEncodeU32, if_neg h1, if_neg h2, if_neg h3, compactDecodeU32,
          List.cons_append]
        rw [if_neg (by omega), if_neg (by omega), if_neg (by decide)]
        have hlen : (leBytes 4 n).length = 4 := leBytes_length 4 n
        have hexp : (3 : Nat) / 4 + 4 = 4 := by decide
        rw [hexp, if_neg (by rw [List.length_append, hlen]; omega)]
        rw [List.take_left' hlen, List.drop_left' hlen, fromLeBytes_leBytes]
        congr 2
        omega

/-- Models SCALE `Encode` for `Vec<u8>`: compact length prefix followed by the bytes. -/
def encodeVecU8 (b : Bytes) : Bytes := compactEncodeU32 b.length ++ b

/-- Models SCALE `Decode` for `Vec<u8>`: read the compact length, then that many bytes,
failing when the input is too short. -/
def decodeVecU8 (input : Bytes) : Option (Bytes × Bytes) :=
  match compactDecodeU32 input with
  | none => none
  | some (len, rest) =>
    if rest.length < len then none else some (rest.take len, rest.drop len)

theorem decodeVecU8_encodeVecU8 (b rest : Bytes) (h : b.length < 4294967296) :
    decodeVecU8 (encodeVecU8 b ++ rest) = some (b, rest) := by
  unfold decodeVecU8 encodeVecU8
  rw [List.append_assoc, compactDecodeU32_encode b.length h (b ++ rest)]
  show (if (b ++ rest).length < b.length then none
    else some ((b ++ rest).take b.length, (b ++ rest).drop b.length)) = some (b, rest)
  rw [if_neg (by rw [List.length_append]; omega)]
  rw [List.take_left' rfl, List.drop_left' rfl]

theorem decodeVecU8_encodeVecU8_nil (b : Bytes) (h : b.length < 4294967296) :
    decodeVecU8 (encodeVecU8 b) = some (b, []) := by
  rw [← List.append_nil (encodeVecU8 b)]
  exact decodeVecU8_encodeVecU8 b [] h

/-- Models `Encode for ScaleCompressed<T>` (scale-compressed/src/lib.rs): compress the
SCALE encoding of the inner value, then encode the compressed bytes as a `Vec<u8>`
("double encode for the length prefix"); `enc` is the SCALE encoder of `T` and
`compress` the external deflate compressor. -/
def scaleCompressedEncode {T : Type} (enc : T → Bytes) (compress : Bytes → Bytes)
    (x : T) : Bytes :=
  encodeVecU8 (compress (enc x))

/-- Models `Decode for ScaleCompressed<T>` (scale-compressed/src/lib.rs): decode the
`Vec<u8>`, decompress with the 4 MiB limit mapping failure to the `"Data corrupted"`
error, then decode `T`; `decompress` is the external
`miniz_oxide::inflate::decompress_to_vec_with_limit`. -/
def scaleCompressedDecode {T : Type} (dec : Bytes → Option T)
    (decompress : Bytes → Nat → Option Bytes) (input : Bytes) : Except String T :=
  match decodeVecU8 input with
  | none => Except.error "input exhausted"
  | some (compressed, _) =>
    match decompress compressed (4 * 1024 * 1024) with
    | none => Except.error "Data corrupted"
    | some decompressed =>
      match dec decompressed with
      | none => Except.error "decode failed"
      | some x => Except.ok x

theorem scaleCompressedDecode_eq {T : Type} (dec : Bytes → Option T)
    (decompress : Bytes → Nat → Option Bytes) (input compressed rest : Bytes)
    (h : decodeVecU8 input = some (compressed, rest)) :
    scaleCompressedDecode dec decompress input =
      match decompress compressed (4 * 1024 * 1024) with
      | none => Except.error "Data corrupted"
      | some decompressed =>
        match dec decompressed with
        | none => Except.error "decode failed"
        | some x => Except.ok x := by
  unfold scaleCompressedDecode
  rw [h]

/-- C10: with a SCALE codec for `T` that round-trips and a compressor/decompressor pair
satisfying the deflate contract, decoding an encoded `ScaleCompressed` value returns the
original whenever its encoding is at most 4 MiB; a payload over the limit or a compressed
buffer the decompressor rejects yields an error instead. -/
theorem scale_compressed_roundtrip {T : Type} (enc : T → Bytes) (dec : Bytes → Option T)
    (compress : Bytes → Bytes) (decompress : Bytes → Nat → Option Bytes)
    (hcodec : ∀ y, dec (enc y) = some y)
    (hround : ∀ b limit, b.length ≤ limit → decompress (compress b) limit = some b)
    (hlimit : ∀ b limit, limit < b.length → decompress (compress b) limit = none)
    (hclen : ∀ b, b.length ≤ 4 * 1024 * 1024 → (compress b).length < 4294967296)
    (x : T) :
    ((enc x).length ≤ 4 * 1024 * 1024 →
      scaleCompressedDecode dec decompress (scaleCompressedEncode enc compress x) =
        Except.ok x) ∧
    (4 * 1024 * 1024 < (enc x).length → (compress (enc x)).length < 4294967296 →
      scaleCompressedDecode dec decompress (scaleCompressedEncode enc compress x) =
        Except.error "Data corrupted") ∧
    (∀ input compressed rest, decodeVecU8 input = some (compressed, rest) →
      decompress compressed (4 * 1024 * 1024) = none →
      scaleCompressedDecode dec decompress input = Except.error "Data corrupted") := by
  refine ⟨?_, ?_, ?_⟩
  · intro hsize
    unfold scaleCompressedEncode
    rw [scaleCompressedDecode_eq dec decompress _ (compress (enc x)) []
      (decodeVecU8_encodeVecU8_nil (compress (enc x)) (hclen (enc x) hsize))]
    simp only [hround (enc x) (4 * 1024 * 1024) hsize, hcodec]
  · intro hsize hcl
    unfold scaleCompressedEncode
    rw [scaleCompressedDecode_eq dec decompress _ (compress (enc x)) []
      (decodeVecU8_encodeVecU8_nil (compress (enc x)) hcl)]
    simp only [hlimit (enc x) (4 * 1024 * 1024) hsize]
  · intro input compressed rest hdec hfail
    rw [scaleCompressedDecode_eq dec decompress input compressed rest hdec]
    simp only [hfail]

/-- Witness for C10: the identity codec and a decompressor that enforces the limit
round-trip the payload `[1, 2, 3]`. -/
theorem scale_compressed_roundtrip_witness :
    scaleCompressedDecode (fun b => some b)
        (fun b limit => if b.length ≤ limit then some b else none)
        (scaleCompressedEncode (fun (b : Bytes) => b) (fun b => b) [1, 2, 3]) =
      Except.ok [1, 2, 3] :=
  (scale_compressed_roundtrip (fun (b : Bytes) => b) (fun b => some b)
      (fun b => b) (fun b limit => if b.length ≤ limit then some b else none)
      (fun y => rfl)
      (fun b limit hb => if_pos hb)
      (fun b limit hb => if_neg (Nat.not_le.mpr hb))
      (fun b hb => by show b.length < 4294967296; omega)
      [1, 2, 3]).1 (by decide)
